import Mathlib

/-!
Verification of the RedFS storage registry (`src/FileSystem.cpp`,
`src/FileSystem.h`): a shallow embedding of the registry state machine
(`load`, `unload`, `get_storage`, `get_shared_storage`, and the helpers
`request_directory`, `migrate_directory`, `find_storage`) together with
theorems about name validation, the acquisition/revocation protocol, the
case-insensitive registry map, migration, and teardown.

Filesystem calls (`std::filesystem::exists`, `create_directory`, `copy`,
`remove_all`) are external effects: each fallible call is driven by an
oracle recording its outcome, and every performed call is logged in an
effect trace so that frame properties ("creates no directory", "never
deletes the root") are provable.
-/

namespace RedFS

/-- A filesystem path, modelled as its list of components
(`std::filesystem::path` with `/` appending a component). -/
abbrev Path := List String

/-- The filesystem side effects performed by the registry code.
`copyRecursive` records the two `copy_options` flags used at the call
site (`overwrite_existing`, `recursive`). -/
inductive FSOp where
  | existsCheck (p : Path)
  | createDir (p : Path)
  | copyRecursive (src dst : Path) (overwriteExisting recurseSubdirs : Bool)
  | removeAll (p : Path)
  deriving DecidableEq, Repr

/-- ASCII lower-casing of one code point (`tolower` over `[A-Z]`). -/
def lowerCode (n : Nat) : Nat :=
  if 65 ≤ n ∧ n ≤ 90 then n + 32 else n

/-- The code points of a string, lower-cased. -/
def lowerStr (s : String) : List Nat :=
  s.toList.map (fun c => lowerCode c.toNat)

/-- Modelled from the spec: `equals_insensitive` is declared in
`Utils.h`, which is not among the sources; the spec states that storage
name comparison is case-insensitive ("lookups are case-insensitive",
"name comparison is case-insensitive"). Two strings are compared equal
after ASCII lower-casing. -/
def equals_insensitive (a b : String) : Bool :=
  lowerStr a == lowerStr b

/-- One code point of an ASCII letter (`[A-Za-z]`). -/
def isAsciiLetter (c : Char) : Bool :=
  (65 ≤ c.toNat && c.toNat ≤ 90) || (97 ≤ c.toNat && c.toNat ≤ 122)

/-- Embeds `regex_match(name, storage_name_rule)` with
`storage_name_rule = "[A-Za-z]{3,24}"`: a whole-string match, i.e. the
string consists of 3 to 24 ASCII letters. -/
def storage_name_ok (name : String) : Bool :=
  3 ≤ name.length && name.length ≤ 24 && name.toList.all isAsciiLetter

/-- Modelled from the spec: `FileSystemStorage` is constructed in
`FileSystem.cpp` but its class is not among the sources; the spec states
a handle "owns a single directory path and a name". Handles themselves
are identified by numeric ids; this record is the data a construction
binds. -/
structure StorageHandleInfo where
  name : String
  path : Path
  deriving DecidableEq, Repr

/-- The registry's mutable static state: the two resolved paths, the
name-to-handle map (`std::unordered_map` as an association list with
exactly-equal keys unique), every handle ever constructed, the set of
revoked handle ids (`revoke_permission`, modelled from the spec:
revocation is a one-way transition of the handle), the id counter for
fresh handles, the `has_error` flag, and whether the host
plugin-handle/logger context is held. -/
structure RegState where
  game_path : Path
  storages_path : Path
  storages : List (String × Nat)
  handles : List (Nat × StorageHandleInfo)
  revoked : List Nat
  nextId : Nat
  has_error : Bool
  hostCtx : Bool
  deriving DecidableEq, Repr

/-- The static initializers: empty map, `has_error = true`, no host
context yet. -/
def initState : RegState :=
  { game_path := [], storages_path := [], storages := [], handles := [],
    revoked := [], nextId := 0, has_error := true, hostCtx := false }

/-- Embeds `FileSystem::find_storage`: scan the map for a key that compares
case-insensitively equal to `p_name`; return its handle. -/
def find_storage (storages : List (String × Nat)) (p_name : String) :
    Option Nat :=
  match storages with
  | [] => none
  | e :: rest =>
    if equals_insensitive e.fst p_name then some e.snd
    else find_storage rest p_name

/-- Embeds `storages[name] = storage` on `std::unordered_map`: replace the value
under an exactly-equal key, or add the entry if no such key exists. -/
def mapInsert (m : List (String × Nat)) (k : String) (v : Nat) :
    List (String × Nat) :=
  match m with
  | [] => [(k, v)]
  | e :: rest => if e.fst = k then (k, v) :: rest else e :: mapInsert rest k v

/-- Outcome of one `std::filesystem::exists` + `create_directory`
sequence: whether the existence check errored, whether the path was
present, and whether creation (if attempted) succeeded without error. -/
structure DirOracle where
  existsErr : Bool
  present : Bool
  createOk : Bool
  deriving DecidableEq, Repr

/-- Embeds `FileSystem::request_directory`: check existence (error means
failure), succeed when present, otherwise create the directory and
succeed exactly when creation succeeded. Returns the success flag and
the filesystem calls performed. -/
def request_directory (o : DirOracle) (p : Path) : Bool × List FSOp :=
  if o.existsErr then (false, [FSOp.existsCheck p])
  else if o.present then (true, [FSOp.existsCheck p])
  else (o.createOk, [FSOp.existsCheck p, FSOp.createDir p])

/-- Outcome of the migration's `exists` check and recursive `copy`. -/
structure MigrateOracle where
  existsErr : Bool
  present : Bool
  copyOk : Bool
  deriving DecidableEq, Repr

/-- Embeds `FileSystem::migrate_directory`: an errored existence check fails;
an absent old path succeeds trivially; otherwise recursively copy
(overwriting existing entries) and succeed exactly when the copy did.
The old path is deliberately not removed here (see `unload`). -/
def migrate_directory (o : MigrateOracle) (p_old p_new : Path) :
    Bool × List FSOp :=
  if o.existsErr then (false, [FSOp.existsCheck p_old])
  else if !o.present then (true, [FSOp.existsCheck p_old])
  else (o.copyOk,
    [FSOp.existsCheck p_old, FSOp.copyRecursive p_old p_new true true])

/-- The legacy storage location
`game_path / "red4ext" / "plugins" / "RedFileSystem" / "storages"`. -/
def old_path_of (game : Path) : Path :=
  game ++ ["red4ext", "plugins", "RedFileSystem", "storages"]

/-- The storage root `game_path / "r6" / "storages"`. -/
def root_path_of (game : Path) : Path :=
  game ++ ["r6", "storages"]

/-- Oracles for the two fallible stages of `load`. -/
structure LoadOracle where
  root : DirOracle
  migrate : MigrateOracle
  deriving DecidableEq, Repr

/-- Embeds `FileSystem::load`: store the host context, resolve `game_path` (from
the host location) and `storages_path`, ensure the storage root exists
(failure leaves `has_error = true` and stops), then migrate the legacy
directory into it (failure leaves `has_error = true` and stops); on full
success set `has_error = false`. -/
def load (s : RegState) (base : Path) (o : LoadOracle) :
    RegState × List FSOp :=
  let sp := root_path_of base
  let s1 := { s with hostCtx := true, game_path := base, storages_path := sp }
  let r := request_directory o.root sp
  if !r.fst then ({ s1 with has_error := true }, r.snd)
  else
    let m := migrate_directory o.migrate (old_path_of base) sp
    if !m.fst then ({ s1 with has_error := true }, r.snd ++ m.snd)
    else ({ s1 with has_error := false }, r.snd ++ m.snd)

/-- Embeds `FileSystem::unload`: best-effort recursive delete of the legacy
directory, clear the storage map, set `has_error = true`, drop the host
plugin-handle/logger context. -/
def unload (s : RegState) : RegState × List FSOp :=
  ({ s with storages := [], has_error := true, hostCtx := false },
   [FSOp.removeAll (old_path_of s.game_path)])

/-- The distinguishable outcomes of an acquisition call. The C++ function
returns a null handle on every failure; the outcomes correspond to its
four early-return paths and the success path. -/
inductive AcqResult where
  | serviceDisabled
  | invalidName
  | alreadyAcquired
  | provisionFailed
  | granted (id : Nat)
  deriving DecidableEq, Repr

/-- Embeds `FileSystem::get_storage`: fail when disabled; fail on a name that
does not match `storage_name_rule` or case-insensitively equals
`"shared"`; on a case-insensitive hit in the map revoke that handle and
fail; otherwise provision `storages_path / name` (fail if that fails),
construct a handle bound to it, register it under the caller's exact
name and return it. -/
def get_storage (s : RegState) (p_name : String) (o : DirOracle) :
    AcqResult × RegState × List FSOp :=
  if s.has_error then (AcqResult.serviceDisabled, s, [])
  else if !storage_name_ok p_name || equals_insensitive p_name "shared" then
    (AcqResult.invalidName, s, [])
  else
    match find_storage s.storages p_name with
    | some id =>
      (AcqResult.alreadyAcquired, { s with revoked := id :: s.revoked }, [])
    | none =>
      let path := s.storages_path ++ [p_name]
      let r := request_directory o path
      if r.fst then
        (AcqResult.granted s.nextId,
         { s with
           storages := mapInsert s.storages p_name s.nextId,
           handles := (s.nextId, ⟨p_name, path⟩) :: s.handles,
           nextId := s.nextId + 1 }, r.snd)
      else (AcqResult.provisionFailed, s, r.snd)

/-- Embeds `FileSystem::get_shared_storage`: fail when disabled; on a hit for
`"shared"` return that same handle (no revocation, no insertion);
otherwise provision `storages_path / "shared"`, construct, register and
return a fresh handle. -/
def get_shared_storage (s : RegState) (o : DirOracle) :
    AcqResult × RegState × List FSOp :=
  if s.has_error then (AcqResult.serviceDisabled, s, [])
  else
    match find_storage s.storages "shared" with
    | some id => (AcqResult.granted id, s, [])
    | none =>
      let path := s.storages_path ++ ["shared"]
      let r := request_directory o path
      if r.fst then
        (AcqResult.granted s.nextId,
         { s with
           storages := mapInsert s.storages "shared" s.nextId,
           handles := (s.nextId, ⟨"shared", path⟩) :: s.handles,
           nextId := s.nextId + 1 }, r.snd)
      else (AcqResult.provisionFailed, s, r.snd)

/-- There is a map key case-insensitively equal to `n`. -/
def hasKeyLike (m : List (String × Nat)) (n : String) : Prop :=
  ∃ k ∈ m.map Prod.fst, equals_insensitive k n = true

/-- No two map keys are case-insensitively equal (the registry's
"at most one live handle per case-insensitive name" shape). -/
def distinctKeys (m : List (String × Nat)) : Prop :=
  List.Pairwise (fun a b => equals_insensitive a.fst b.fst = false) m

/-- Repeated `get_shared_storage` calls, one per oracle, collecting the
results and the concatenated effect traces. -/
def repeat_shared (s : RegState) (os : List DirOracle) :
    List AcqResult × RegState × List FSOp :=
  match os with
  | [] => ([], s, [])
  | o :: rest =>
    let r := get_shared_storage s o
    let t := repeat_shared r.snd.fst rest
    (r.fst :: t.fst, t.snd.fst, r.snd.snd ++ t.snd.snd)

/-- One acquisition call within a session: a `get_storage` or
`get_shared_storage` call with any arguments and any oracle. -/
inductive AcqStep : RegState → RegState → Prop where
  | get (name : String) (o : DirOracle) (s : RegState) :
      AcqStep s (get_storage s name o).snd.fst
  | shared (o : DirOracle) (s : RegState) :
      AcqStep s (get_shared_storage s o).snd.fst

/-- One registry call of any kind. -/
inductive RegStep : RegState → RegState → Prop where
  | doLoad (base : Path) (o : LoadOracle) (s : RegState) :
      RegStep s (load s base o).fst
  | doUnload (s : RegState) : RegStep s (unload s).fst
  | doGet (name : String) (o : DirOracle) (s : RegState) :
      RegStep s (get_storage s name o).snd.fst
  | doShared (o : DirOracle) (s : RegState) :
      RegStep s (get_shared_storage s o).snd.fst

/-- Registry states reachable from the initial state by any sequence of
`load`, `unload`, `get_storage` and `get_shared_storage` calls. -/
inductive Reachable : RegState → Prop where
  | init : Reachable initState
  | step {s t : RegState} : Reachable s → RegStep s t → Reachable t

/-- A small enabled registry state (as left by a successful `load` from
base `["G"]`) used by the concrete evaluations below. -/
def demoState : RegState :=
  { game_path := ["G"], storages_path := ["G", "r6", "storages"],
    storages := [], handles := [], revoked := [], nextId := 0,
    has_error := false, hostCtx := true }

/-- State `demoState` after a successful shared-storage acquisition. -/
def sharedDemoState : RegState :=
  { demoState with
    storages := [("shared", 0)],
    handles := [(0, ⟨"shared", demoState.storages_path ++ ["shared"]⟩)],
    nextId := 1 }

/-- State `demoState` after a successful acquisition of storage `"mymod"`. -/
def mymodDemoState : RegState :=
  { demoState with
    storages := [("mymod", 0)],
    handles := [(0, ⟨"mymod", demoState.storages_path ++ ["mymod"]⟩)],
    nextId := 1 }

/-! ### Helper lemmas -/

theorem equals_insensitive_refl (a : String) :
    equals_insensitive a a = true := by
  simp [equals_insensitive]

theorem equals_insensitive_symm {a b : String}
    (h : equals_insensitive a b = true) : equals_insensitive b a = true := by
  simp only [equals_insensitive, beq_iff_eq] at *
  exact h.symm

theorem equals_insensitive_trans {a b c : String}
    (h1 : equals_insensitive a b = true)
    (h2 : equals_insensitive b c = true) :
    equals_insensitive a c = true := by
  simp only [equals_insensitive, beq_iff_eq] at *
  exact h1.trans h2

theorem find_storage_eq_none {m : List (String × Nat)} {n : String} :
    find_storage m n = none ↔
      ∀ e ∈ m, equals_insensitive e.fst n = false := by
  induction m with
  | nil => simp [find_storage]
  | cons e rest ih =>
    cases hb : equals_insensitive e.fst n with
    | false => simp [find_storage, hb, ih]
    | true => simp [find_storage, hb]

theorem find_storage_ne_none_of_hasKeyLike {m : List (String × Nat)}
    {n : String} (h : hasKeyLike m n) : find_storage m n ≠ none := by
  rcases h with ⟨k, hk, heq⟩
  intro hnone
  rcases List.mem_map.mp hk with ⟨e, hmem, hfst⟩
  have := find_storage_eq_none.mp hnone e hmem
  rw [hfst, heq] at this
  exact absurd this (by simp)

theorem hasKeyLike_of_find_storage {m : List (String × Nat)} {n : String}
    {id : Nat} (h : find_storage m n = some id) : hasKeyLike m n := by
  induction m with
  | nil => simp [find_storage] at h
  | cons e rest ih =>
    cases hb : equals_insensitive e.fst n with
    | false =>
      rw [find_storage, if_neg (by simp [hb])] at h
      rcases ih h with ⟨k, hk, heq⟩
      exact ⟨k, by simp [hk], heq⟩
    | true => exact ⟨e.fst, by simp, hb⟩

theorem mapInsert_eq_append {m : List (String × Nat)} {k : String} {v : Nat}
    (h : ∀ e ∈ m, e.fst ≠ k) : mapInsert m k v = m ++ [(k, v)] := by
  induction m with
  | nil => rfl
  | cons e rest ih =>
    rw [mapInsert, if_neg (h e (by simp)), ih (fun x hx => h x (by simp [hx]))]
    rfl

theorem mem_keys_mapInsert {m : List (String × Nat)} {q k : String} {v : Nat}
    (h : q ∈ m.map Prod.fst) : q ∈ (mapInsert m k v).map Prod.fst := by
  induction m with
  | nil => simp at h
  | cons e rest ih =>
    by_cases he : e.fst = k
    · rw [mapInsert, if_pos he]
      simp only [List.map_cons, List.mem_cons] at h ⊢
      rcases h with h | h
      · exact Or.inl (h.trans he)
      · exact Or.inr h
    · rw [mapInsert, if_neg he]
      simp only [List.map_cons, List.mem_cons] at h ⊢
      rcases h with h | h
      · exact Or.inl h
      · exact Or.inr (ih h)

theorem hasKeyLike_mapInsert {m : List (String × Nat)} {n k : String}
    {v : Nat} (h : hasKeyLike m n) : hasKeyLike (mapInsert m k v) n := by
  rcases h with ⟨q, hq, heq⟩
  exact ⟨q, mem_keys_mapInsert hq, heq⟩

theorem get_storage_granted_find_none {s : RegState} {n : String}
    {o : DirOracle} {g : Nat}
    (h : (get_storage s n o).fst = AcqResult.granted g) :
    find_storage s.storages n = none := by
  cases herr : s.has_error with
  | true => simp [get_storage, herr] at h
  | false =>
    cases hval : (!storage_name_ok n || equals_insensitive n "shared") with
    | true => simp [get_storage, herr, hval] at h
    | false =>
      cases hfind : find_storage s.storages n with
      | none => rfl
      | some id => simp [get_storage, herr, hval, hfind] at h

theorem get_storage_storages_cases (s : RegState) (n : String)
    (o : DirOracle) :
    (get_storage s n o).snd.fst.storages = s.storages ∨
    (find_storage s.storages n = none ∧
      (get_storage s n o).snd.fst.storages = mapInsert s.storages n s.nextId) := by
  cases herr : s.has_error with
  | true => left; simp [get_storage, herr]
  | false =>
    cases hval : (!storage_name_ok n || equals_insensitive n "shared") with
    | true => left; simp [get_storage, herr, hval]
    | false =>
      cases hfind : find_storage s.storages n with
      | some id => left; simp [get_storage, herr, hval, hfind]
      | none =>
        cases hreq : (request_directory o (s.storages_path ++ [n])).fst with
        | false => left; simp [get_storage, herr, hval, hfind, hreq]
        | true =>
          right
          exact ⟨rfl, by simp [get_storage, herr, hval, hfind, hreq]⟩

theorem get_shared_storage_storages_cases (s : RegState) (o : DirOracle) :
    (get_shared_storage s o).snd.fst.storages = s.storages ∨
    (find_storage s.storages "shared" = none ∧
      (get_shared_storage s o).snd.fst.storages =
        mapInsert s.storages "shared" s.nextId) := by
  cases herr : s.has_error with
  | true => left; simp [get_shared_storage, herr]
  | false =>
    cases hfind : find_storage s.storages "shared" with
    | some id => left; simp [get_shared_storage, herr, hfind]
    | none =>
      cases hreq : (request_directory o (s.storages_path ++ ["shared"])).fst with
      | false => left; simp [get_shared_storage, herr, hfind, hreq]
      | true =>
        right
        exact ⟨rfl, by simp [get_shared_storage, herr, hfind, hreq]⟩

theorem load_storages_eq (s : RegState) (base : Path) (o : LoadOracle) :
    (load s base o).fst.storages = s.storages := by
  cases h1 : (request_directory o.root (root_path_of base)).fst with
  | false => simp [load, h1]
  | true =>
    cases h2 :
        (migrate_directory o.migrate (old_path_of base) (root_path_of base)).fst with
    | false => simp [load, h1, h2]
    | true => simp [load, h1, h2]

theorem removeAll_not_mem_request {o : DirOracle} {q p : Path} :
    FSOp.removeAll p ∉ (request_directory o q).snd := by
  rcases o with ⟨e, pr, c⟩
  cases e <;> cases pr <;> simp [request_directory]

theorem removeAll_not_mem_migrate {o : MigrateOracle} {a b p : Path} :
    FSOp.removeAll p ∉ (migrate_directory o a b).snd := by
  rcases o with ⟨e, pr, c⟩
  cases e <;> cases pr <;> simp [migrate_directory]

theorem get_storage_trace_cases (s : RegState) (n : String) (o : DirOracle) :
    (get_storage s n o).snd.snd = [] ∨
    (get_storage s n o).snd.snd =
      (request_directory o (s.storages_path ++ [n])).snd := by
  cases herr : s.has_error with
  | true => left; simp [get_storage, herr]
  | false =>
    cases hval : (!storage_name_ok n || equals_insensitive n "shared") with
    | true => left; simp [get_storage, herr, hval]
    | false =>
      cases hfind : find_storage s.storages n with
      | some id => left; simp [get_storage, herr, hval, hfind]
      | none =>
        cases hreq : (request_directory o (s.storages_path ++ [n])).fst with
        | false => right; simp [get_storage, herr, hval, hfind, hreq]
        | true => right; simp [get_storage, herr, hval, hfind, hreq]

theorem get_shared_storage_trace_cases (s : RegState) (o : DirOracle) :
    (get_shared_storage s o).snd.snd = [] ∨
    (get_shared_storage s o).snd.snd =
      (request_directory o (s.storages_path ++ ["shared"])).snd := by
  cases herr : s.has_error with
  | true => left; simp [get_shared_storage, herr]
  | false =>
    cases hfind : find_storage s.storages "shared" with
    | some id => left; simp [get_shared_storage, herr, hfind]
    | none =>
      cases hreq : (request_directory o (s.storages_path ++ ["shared"])).fst with
      | false => right; simp [get_shared_storage, herr, hfind, hreq]
      | true => right; simp [get_shared_storage, herr, hfind, hreq]

theorem load_trace_cases (s : RegState) (base : Path) (o : LoadOracle) :
    (load s base o).snd = (request_directory o.root (root_path_of base)).snd ∨
    (load s base o).snd =
      (request_directory o.root (root_path_of base)).snd ++
        (migrate_directory o.migrate (old_path_of base) (root_path_of base)).snd := by
  cases h1 : (request_directory o.root (root_path_of base)).fst with
  | false => left; simp [load, h1]
  | true =>
    cases h2 :
        (migrate_directory o.migrate (old_path_of base) (root_path_of base)).fst with
    | false => right; simp [load, h1, h2]
    | true => right; simp [load, h1, h2]

/-! ### Claims -/

/-- C5: Whenever `has_error` is true, both `get_storage` and
`get_shared_storage` fail immediately with `serviceDisabled`, leave the
whole state (storages map, revoked set, everything) unchanged, and
perform no filesystem operation. -/
theorem c5_service_disabled (s : RegState) (name : String) (o o2 : DirOracle)
    (h : s.has_error = true) :
    get_storage s name o = (AcqResult.serviceDisabled, s, []) ∧
    get_shared_storage s o2 = (AcqResult.serviceDisabled, s, []) :=
  ⟨by simp [get_storage, h], by simp [get_shared_storage, h]⟩

/-- Witness for C5 at the initial (disabled) state. -/
theorem c5_service_disabled_witness :
    initState.has_error = true ∧
    (get_storage initState "mymod" ⟨false, true, true⟩ =
        (AcqResult.serviceDisabled, initState, []) ∧
      get_shared_storage initState ⟨false, true, true⟩ =
        (AcqResult.serviceDisabled, initState, [])) :=
  ⟨rfl, c5_service_disabled initState "mymod" ⟨false, true, true⟩
    ⟨false, true, true⟩ rfl⟩

/-- C3: On an enabled registry, any name that does not consist of 3 to 24
ASCII letters, or that case-insensitively equals `"shared"`, makes
`get_storage` fail with `invalidName`, leaving the state unchanged and
performing no filesystem operation (in particular creating no
directory). -/
theorem c3_invalid_name (s : RegState) (name : String) (o : DirOracle)
    (hen : s.has_error = false)
    (h : storage_name_ok name = false ∨
      equals_insensitive name "shared" = true) :
    get_storage s name o = (AcqResult.invalidName, s, []) := by
  rcases h with h | h
  · simp [get_storage, hen, h]
  · simp [get_storage, hen, h]

/-- Witness for C3 at the two-letter name `"ab"`. -/
theorem c3_invalid_name_witness :
    demoState.has_error = false ∧
    (storage_name_ok "ab" = false ∨
      equals_insensitive "ab" "shared" = true) ∧
    get_storage demoState "ab" ⟨false, true, true⟩ =
      (AcqResult.invalidName, demoState, []) :=
  ⟨rfl, Or.inl (by decide),
    c3_invalid_name demoState "ab" ⟨false, true, true⟩ rfl
      (Or.inl (by decide))⟩

/-- C9: When provisioning the directory fails inside `get_storage`, the
call returns `provisionFailed` with the state unchanged (no entry
registered) and its trace is exactly the one provisioning attempt; a
fresh `get_storage` for the same name whose provisioning succeeds is
then granted. -/
theorem c9_provision_failed (s : RegState) (name : String) (o o2 : DirOracle)
    (hen : s.has_error = false)
    (hvalid : storage_name_ok name = true)
    (hsh : equals_insensitive name "shared" = false)
    (hfind : find_storage s.storages name = none)
    (hfail : (request_directory o (s.storages_path ++ [name])).fst = false)
    (hok : (request_directory o2 (s.storages_path ++ [name])).fst = true) :
    get_storage s name o =
      (AcqResult.provisionFailed, s,
        (request_directory o (s.storages_path ++ [name])).snd) ∧
    (get_storage s name o2).fst = AcqResult.granted s.nextId := by
  constructor
  · simp [get_storage, hen, hvalid, hsh, hfind, hfail]
  · simp [get_storage, hen, hvalid, hsh, hfind, hok]

/-- Witness for C9: an errored existence check, then a successful retry. -/
theorem c9_provision_failed_witness :
    demoState.has_error = false ∧
    storage_name_ok "mymod" = true ∧
    equals_insensitive "mymod" "shared" = false ∧
    find_storage demoState.storages "mymod" = none ∧
    (request_directory ⟨true, false, false⟩
      (demoState.storages_path ++ ["mymod"])).fst = false ∧
    (request_directory ⟨false, false, true⟩
      (demoState.storages_path ++ ["mymod"])).fst = true ∧
    (get_storage demoState "mymod" ⟨true, false, false⟩ =
        (AcqResult.provisionFailed, demoState,
          (request_directory ⟨true, false, false⟩
            (demoState.storages_path ++ ["mymod"])).snd) ∧
      (get_storage demoState "mymod" ⟨false, false, true⟩).fst =
        AcqResult.granted demoState.nextId) :=
  ⟨rfl, by decide, by decide, rfl, rfl, rfl,
    c9_provision_failed demoState "mymod" ⟨true, false, false⟩
      ⟨false, false, true⟩ rfl (by decide) (by decide) rfl rfl rfl⟩

theorem list_all_map_eq {α β : Type} (l : List α) (f : α → β)
    (p : β → Bool) : (l.map f).all p = l.all (fun c => p (f c)) := by
  induction l with
  | nil => rfl
  | cons c rest ih => simp [List.all_cons, ih]

theorem isAsciiLetter_eq_lower (c : Char) :
    isAsciiLetter c = (97 ≤ lowerCode c.toNat && lowerCode c.toNat ≤ 122) := by
  rw [Bool.eq_iff_iff]
  simp only [isAsciiLetter, lowerCode, Bool.or_eq_true, Bool.and_eq_true,
    decide_eq_true_eq]
  split <;> omega

theorem storage_name_ok_eq_lower (s : String) :
    storage_name_ok s =
      (3 ≤ (lowerStr s).length && (lowerStr s).length ≤ 24 &&
        (lowerStr s).all (fun n => 97 ≤ n && n ≤ 122)) := by
  have hlen : (lowerStr s).length = s.length := by
    simp only [lowerStr, List.length_map]
    rfl
  have hall : (lowerStr s).all (fun n => 97 ≤ n && n ≤ 122) =
      s.toList.all isAsciiLetter := by
    simp only [lowerStr]
    rw [list_all_map_eq]
    apply congrArg
    funext c
    exact (isAsciiLetter_eq_lower c).symm
  unfold storage_name_ok
  rw [hlen, hall]

theorem storage_name_ok_congr {a b : String}
    (h : equals_insensitive a b = true) :
    storage_name_ok a = storage_name_ok b := by
  have hl : lowerStr a = lowerStr b := by
    simpa [equals_insensitive] using h
  rw [storage_name_ok_eq_lower, storage_name_ok_eq_lower, hl]

theorem find_storage_append_skip {m m2 : List (String × Nat)} {n : String}
    (h : ∀ e ∈ m, equals_insensitive e.fst n = false) :
    find_storage (m ++ m2) n = find_storage m2 n := by
  induction m with
  | nil => simp
  | cons e rest ih =>
    rw [List.cons_append, find_storage, if_neg (by simp [h e (by simp)])]
    exact ih (fun x hx => h x (by simp [hx]))

/-- C4: On an enabled registry, a first `get_storage` for a valid,
unregistered name whose provisioning succeeds is granted a fresh handle
bound to `storages_path / name`; the handle is registered under the
caller's exact casing; afterwards every case-variant of the name looks
up that same entry, and a `get_storage` call with a case-variant adds no
second entry. -/
theorem c4_first_acquisition (s : RegState) (name : String) (o : DirOracle)
    (hen : s.has_error = false)
    (hvalid : storage_name_ok name = true)
    (hsh : equals_insensitive name "shared" = false)
    (hfind : find_storage s.storages name = none)
    (hok : (request_directory o (s.storages_path ++ [name])).fst = true) :
    (get_storage s name o).fst = AcqResult.granted s.nextId ∧
    (get_storage s name o).snd.fst.storages =
      s.storages ++ [(name, s.nextId)] ∧
    (get_storage s name o).snd.fst.handles =
      (s.nextId, ⟨name, s.storages_path ++ [name]⟩) :: s.handles ∧
    (∀ v o2, equals_insensitive v name = true →
      find_storage (get_storage s name o).snd.fst.storages v =
        some s.nextId ∧
      (get_storage (get_storage s name o).snd.fst v o2).snd.fst.storages =
        (get_storage s name o).snd.fst.storages) := by
  have hkeys : ∀ e ∈ s.storages, equals_insensitive e.fst name = false :=
    find_storage_eq_none.mp hfind
  have hne : ∀ e ∈ s.storages, e.fst ≠ name := by
    intro e he heq
    have hx := hkeys e he
    rw [heq, equals_insensitive_refl] at hx
    exact absurd hx (by simp)
  have hins : mapInsert s.storages name s.nextId =
      s.storages ++ [(name, s.nextId)] := mapInsert_eq_append hne
  have hcall : get_storage s name o = (AcqResult.granted s.nextId,
      { s with storages := mapInsert s.storages name s.nextId,
               handles :=
                 (s.nextId, ⟨name, s.storages_path ++ [name]⟩) :: s.handles,
               nextId := s.nextId + 1 },
      (request_directory o (s.storages_path ++ [name])).snd) := by
    simp [get_storage, hen, hvalid, hsh, hfind, hok]
  refine ⟨by rw [hcall], by rw [hcall]; exact hins, by rw [hcall], ?_⟩
  intro v o2 hv
  have hskip : ∀ e ∈ s.storages, equals_insensitive e.fst v = false := by
    intro e he
    cases hev : equals_insensitive e.fst v with
    | false => rfl
    | true =>
      have := equals_insensitive_trans hev hv
      rw [hkeys e he] at this
      exact absurd this (by simp)
  have hfindv : find_storage (get_storage s name o).snd.fst.storages v =
      some s.nextId := by
    rw [hcall]
    show find_storage (mapInsert s.storages name s.nextId) v = some s.nextId
    rw [hins, find_storage_append_skip hskip, find_storage,
      if_pos (equals_insensitive_symm hv)]
  refine ⟨hfindv, ?_⟩
  have hterr : (get_storage s name o).snd.fst.has_error = false := by
    rw [hcall]; exact hen
  have hvvalid : storage_name_ok v = true := by
    rw [storage_name_ok_congr hv]; exact hvalid
  have hvsh : equals_insensitive v "shared" = false := by
    cases hx : equals_insensitive v "shared" with
    | false => rfl
    | true =>
      have := equals_insensitive_trans (equals_insensitive_symm hv) hx
      rw [hsh] at this
      exact absurd this (by simp)
  generalize hgen : (get_storage s name o).snd.fst = t at hfindv hterr
  simp [get_storage, hterr, hvvalid, hvsh, hfindv]

/-- Witness for C4: acquiring `"MyMod"` on the fresh enabled state, then
resolving the case-variant `"MYMOD"`. -/
theorem c4_first_acquisition_witness :
    demoState.has_error = false ∧
    storage_name_ok "MyMod" = true ∧
    equals_insensitive "MyMod" "shared" = false ∧
    find_storage demoState.storages "MyMod" = none ∧
    (request_directory ⟨false, false, true⟩
      (demoState.storages_path ++ ["MyMod"])).fst = true ∧
    (get_storage demoState "MyMod" ⟨false, false, true⟩).fst =
      AcqResult.granted 0 ∧
    (get_storage demoState "MyMod" ⟨false, false, true⟩).snd.fst.storages =
      [("MyMod", 0)] ∧
    find_storage
      (get_storage demoState "MyMod" ⟨false, false, true⟩).snd.fst.storages
      "MYMOD" = some 0 := by
  have h := c4_first_acquisition demoState "MyMod" ⟨false, false, true⟩ rfl
    (by decide) (by decide) rfl rfl
  exact ⟨rfl, by decide, by decide, rfl, rfl, h.1, by simpa using h.2.1,
    (h.2.2.2 "MYMOD" ⟨false, false, true⟩ (by decide)).1⟩

/-- C6: With the shared storage already acquired (an entry for
`"shared"` in the map) on an enabled registry, any number of further
`get_shared_storage` calls each return that same handle, leave the state
entirely unchanged (no revocation, no new map entry) and perform no
filesystem operation. -/
theorem c6_shared_idempotent (s : RegState) (id : Nat)
    (hen : s.has_error = false)
    (hfind : find_storage s.storages "shared" = some id)
    (os : List DirOracle) :
    repeat_shared s os = (os.map (fun _ => AcqResult.granted id), s, []) := by
  have hone : ∀ o, get_shared_storage s o = (AcqResult.granted id, s, []) := by
    intro o
    simp [get_shared_storage, hen, hfind]
  induction os with
  | nil => rfl
  | cons o rest ih => simp [repeat_shared, hone, ih]

/-- Witness for C6: three repeated shared acquisitions after the first. -/
theorem c6_shared_idempotent_witness :
    sharedDemoState.has_error = false ∧
    find_storage sharedDemoState.storages "shared" = some 0 ∧
    repeat_shared sharedDemoState
        [⟨false, true, true⟩, ⟨true, false, false⟩, ⟨false, false, false⟩] =
      ([AcqResult.granted 0, AcqResult.granted 0, AcqResult.granted 0],
        sharedDemoState, []) :=
  ⟨rfl, by decide,
    c6_shared_idempotent sharedDemoState 0 rfl (by decide)
      [⟨false, true, true⟩, ⟨true, false, false⟩, ⟨false, false, false⟩]⟩

/-- C7: After the storage root has been ensured during `load`: migration
succeeds trivially when the legacy path does not exist; when it exists
its contents are recursively copied into the root with overwriting while
nothing is deleted (the legacy directory is left in place); a failed
copy (or an errored existence check) leaves `has_error` true; and
`has_error` ends up false exactly when migration succeeded. -/
theorem c7_load_migration (s : RegState) (base : Path) (o : LoadOracle)
    (hroot : (request_directory o.root (root_path_of base)).fst = true) :
    (load s base o).fst.has_error =
      !(migrate_directory o.migrate (old_path_of base)
          (root_path_of base)).fst ∧
    (∀ p, FSOp.removeAll p ∉ (load s base o).snd) ∧
    (o.migrate.existsErr = false → o.migrate.present = true →
      FSOp.copyRecursive (old_path_of base) (root_path_of base) true true ∈
        (load s base o).snd) ∧
    (o.migrate.existsErr = false → o.migrate.present = false →
      (migrate_directory o.migrate (old_path_of base)
          (root_path_of base)).fst = true ∧
        (load s base o).fst.has_error = false) ∧
    (o.migrate.existsErr = false → o.migrate.present = true →
      o.migrate.copyOk = false → (load s base o).fst.has_error = true) := by
  refine ⟨?_, ?_, ?_, ?_, ?_⟩
  · cases hm : (migrate_directory o.migrate (old_path_of base)
        (root_path_of base)).fst with
    | false => simp [load, hroot, hm]
    | true => simp [load, hroot, hm]
  · intro p hp
    rcases load_trace_cases s base o with h | h
    · rw [h] at hp
      exact removeAll_not_mem_request hp
    · rw [h] at hp
      rcases List.mem_append.mp hp with hp | hp
      · exact removeAll_not_mem_request hp
      · exact removeAll_not_mem_migrate hp
  · intro hme hmp
    have hsnd : (migrate_directory o.migrate (old_path_of base)
        (root_path_of base)).snd =
        [FSOp.existsCheck (old_path_of base),
          FSOp.copyRecursive (old_path_of base) (root_path_of base)
            true true] := by
      simp [migrate_directory, hme, hmp]
    have htr : (load s base o).snd =
        (request_directory o.root (root_path_of base)).snd ++
          (migrate_directory o.migrate (old_path_of base)
            (root_path_of base)).snd := by
      cases hm2 : (migrate_directory o.migrate (old_path_of base)
          (root_path_of base)).fst with
      | false => simp [load, hroot, hm2]
      | true => simp [load, hroot, hm2]
    rw [htr, hsnd]
    simp
  · intro hme hmp
    have hm : (migrate_directory o.migrate (old_path_of base)
        (root_path_of base)).fst = true := by
      simp [migrate_directory, hme, hmp]
    exact ⟨hm, by simp [load, hroot, hm]⟩
  · intro hme hmp hmc
    have hm : (migrate_directory o.migrate (old_path_of base)
        (root_path_of base)).fst = false := by
      simp [migrate_directory, hme, hmp, hmc]
    simp [load, hroot, hm]

/-- Witness for C7: a successful load with an existing legacy directory
and a successful copy. -/
theorem c7_load_migration_witness :
    (request_directory (⟨false, true, true⟩ : DirOracle)
      (root_path_of ["G"])).fst = true ∧
    (load initState ["G"]
      ⟨⟨false, true, true⟩, ⟨false, true, true⟩⟩).fst.has_error = false ∧
    FSOp.copyRecursive (old_path_of ["G"]) (root_path_of ["G"]) true true ∈
      (load initState ["G"] ⟨⟨false, true, true⟩, ⟨false, true, true⟩⟩).snd ∧
    FSOp.removeAll (old_path_of ["G"]) ∉
      (load initState ["G"] ⟨⟨false, true, true⟩, ⟨false, true, true⟩⟩).snd := by
  have h := c7_load_migration initState ["G"]
    ⟨⟨false, true, true⟩, ⟨false, true, true⟩⟩ rfl
  refine ⟨rfl, ?_, h.2.2.1 rfl rfl, h.2.1 (old_path_of ["G"])⟩
  rw [h.1]
  rfl

/-- C8: `unload` deletes (best effort) exactly the legacy directory,
clears the map, disables the registry and drops the host context; no
acquisition or load call ever performs a recursive delete; and the
legacy path deleted by `unload` is distinct from the storage root and
from every storage directory under it. -/
theorem c8_unload_frame (s : RegState) :
    unload s =
      ({ s with storages := [], has_error := true, hostCtx := false },
        [FSOp.removeAll (old_path_of s.game_path)]) ∧
    (∀ name o p, FSOp.removeAll p ∉ (get_storage s name o).snd.snd) ∧
    (∀ o p, FSOp.removeAll p ∉ (get_shared_storage s o).snd.snd) ∧
    (∀ base o p, FSOp.removeAll p ∉ (load s base o).snd) ∧
    (∀ base, old_path_of base ≠ root_path_of base) ∧
    (∀ base name, old_path_of base ≠ root_path_of base ++ [name]) := by
  refine ⟨rfl, ?_, ?_, ?_, ?_, ?_⟩
  · intro name o p hp
    rcases get_storage_trace_cases s name o with h | h
    · simp [h] at hp
    · rw [h] at hp
      exact removeAll_not_mem_request hp
  · intro o p hp
    rcases get_shared_storage_trace_cases s o with h | h
    · simp [h] at hp
    · rw [h] at hp
      exact removeAll_not_mem_request hp
  · intro base o p hp
    rcases load_trace_cases s base o with h | h
    · rw [h] at hp
      exact removeAll_not_mem_request hp
    · rw [h] at hp
      rcases List.mem_append.mp hp with hp | hp
      · exact removeAll_not_mem_request hp
      · exact removeAll_not_mem_migrate hp
  · intro base h
    simp only [old_path_of, root_path_of] at h
    exact absurd (List.append_cancel_left h) (by decide)
  · intro base name h
    simp only [old_path_of, root_path_of] at h
    rw [List.append_assoc] at h
    have h2 := List.append_cancel_left h
    simp only [List.cons_append, List.nil_append] at h2
    injection h2 with h3 h4
    exact absurd h3 (by decide)

theorem get_storage_has_error_eq (s : RegState) (n : String) (o : DirOracle) :
    (get_storage s n o).snd.fst.has_error = s.has_error := by
  cases herr : s.has_error with
  | true => simp [get_storage, herr]
  | false =>
    cases hval : (!storage_name_ok n || equals_insensitive n "shared") with
    | true => simp [get_storage, herr, hval]
    | false =>
      cases hfind : find_storage s.storages n with
      | some id => simp [get_storage, herr, hval, hfind]
      | none =>
        cases hreq : (request_directory o (s.storages_path ++ [n])).fst with
        | false => simp [get_storage, herr, hval, hfind, hreq]
        | true => simp [get_storage, herr, hval, hfind, hreq]

theorem get_shared_storage_has_error_eq (s : RegState) (o : DirOracle) :
    (get_shared_storage s o).snd.fst.has_error = s.has_error := by
  cases herr : s.has_error with
  | true => simp [get_shared_storage, herr]
  | false =>
    cases hfind : find_storage s.storages "shared" with
    | some id => simp [get_shared_storage, herr, hfind]
    | none =>
      cases hreq : (request_directory o (s.storages_path ++ ["shared"])).fst with
      | false => simp [get_shared_storage, herr, hfind, hreq]
      | true => simp [get_shared_storage, herr, hfind, hreq]

theorem acqStep_hasKeyLike {s t : RegState} (h : AcqStep s t) {n : String}
    (hk : hasKeyLike s.storages n) : hasKeyLike t.storages n := by
  cases h with
  | get name o s =>
    rcases get_storage_storages_cases s name o with hc | ⟨hf, hc⟩
    · rw [hc]; exact hk
    · rw [hc]; exact hasKeyLike_mapInsert hk
  | shared o s =>
    rcases get_shared_storage_storages_cases s o with hc | ⟨hf, hc⟩
    · rw [hc]; exact hk
    · rw [hc]; exact hasKeyLike_mapInsert hk

theorem acqStep_has_error {s t : RegState} (h : AcqStep s t) :
    t.has_error = s.has_error := by
  cases h with
  | get name o s => exact get_storage_has_error_eq s name o
  | shared o s => exact get_shared_storage_has_error_eq s o

theorem acqReach_hasKeyLike {s t : RegState}
    (h : Relation.ReflTransGen AcqStep s t) {n : String}
    (hk : hasKeyLike s.storages n) : hasKeyLike t.storages n := by
  induction h with
  | refl => exact hk
  | tail hst hstep ih => exact acqStep_hasKeyLike hstep ih

theorem acqReach_has_error {s t : RegState}
    (h : Relation.ReflTransGen AcqStep s t) :
    t.has_error = s.has_error := by
  induction h with
  | refl => rfl
  | tail hst hstep ih => exact (acqStep_has_error hstep).trans ih

theorem hasKeyLike_congr {m : List (String × Nat)} {a b : String}
    (hab : equals_insensitive b a = true) (h : hasKeyLike m a) :
    hasKeyLike m b := by
  rcases h with ⟨k, hk, heq⟩
  exact ⟨k, hk, equals_insensitive_trans heq (equals_insensitive_symm hab)⟩

/-- C1: On an enabled registry, a `get_storage` call for a (valid,
non-reserved) name already registered (case-insensitively) under handle
`id` revokes `id`, fails with `alreadyAcquired`, and changes nothing but
the revoked set — the entry stays in the map; and after any further
sequence of acquisition calls, a `get_storage` call for any case-variant
of that name again fails with `alreadyAcquired` (never a fresh handle),
the entry still being present. -/
theorem c1_conflict_poisons (s : RegState) (name : String) (o : DirOracle)
    (id : Nat)
    (hen : s.has_error = false)
    (hvalid : storage_name_ok name = true)
    (hsh : equals_insensitive name "shared" = false)
    (hfind : find_storage s.storages name = some id) :
    (get_storage s name o).fst = AcqResult.alreadyAcquired ∧
    (get_storage s name o).snd.fst = { s with revoked := id :: s.revoked } ∧
    id ∈ (get_storage s name o).snd.fst.revoked ∧
    (∀ t, Relation.ReflTransGen AcqStep (get_storage s name o).snd.fst t →
      ∀ n2 o2, equals_insensitive n2 name = true →
        (get_storage t n2 o2).fst = AcqResult.alreadyAcquired ∧
        find_storage t.storages n2 ≠ none) := by
  have hcall : get_storage s name o = (AcqResult.alreadyAcquired,
      { s with revoked := id :: s.revoked }, []) := by
    simp [get_storage, hen, hvalid, hsh, hfind]
  refine ⟨by rw [hcall], by rw [hcall], by rw [hcall]; simp, ?_⟩
  intro t ht n2 o2 hv
  have hk0 : hasKeyLike s.storages name := hasKeyLike_of_find_storage hfind
  have hk1 : hasKeyLike (get_storage s name o).snd.fst.storages name := by
    rw [hcall]; exact hk0
  have hkt : hasKeyLike t.storages name := acqReach_hasKeyLike ht hk1
  have hkt2 : hasKeyLike t.storages n2 := hasKeyLike_congr hv hkt
  have hterr : t.has_error = false := by
    rw [acqReach_has_error ht, hcall]; exact hen
  have hvvalid : storage_name_ok n2 = true := by
    rw [storage_name_ok_congr hv]; exact hvalid
  have hvsh : equals_insensitive n2 "shared" = false := by
    cases hx : equals_insensitive n2 "shared" with
    | false => rfl
    | true =>
      have := equals_insensitive_trans (equals_insensitive_symm hv) hx
      rw [hsh] at this
      exact absurd this (by simp)
  have hne := find_storage_ne_none_of_hasKeyLike hkt2
  cases hf : find_storage t.storages n2 with
  | none => exact absurd hf hne
  | some j =>
    refine ⟨by simp [get_storage, hterr, hvvalid, hvsh, hf], by simp [hf]⟩

/-- Witness for C1: a second and a third acquisition of `"mymod"` (the
third via the case-variant `"MyMod"`) after a successful first one. -/
theorem c1_conflict_poisons_witness :
    mymodDemoState.has_error = false ∧
    storage_name_ok "mymod" = true ∧
    equals_insensitive "mymod" "shared" = false ∧
    find_storage mymodDemoState.storages "mymod" = some 0 ∧
    (get_storage mymodDemoState "mymod" ⟨false, true, true⟩).fst =
      AcqResult.alreadyAcquired ∧
    (get_storage mymodDemoState "mymod" ⟨false, true, true⟩).snd.fst =
      { mymodDemoState with revoked := [0] } ∧
    (get_storage
      (get_storage mymodDemoState "mymod" ⟨false, true, true⟩).snd.fst
      "MyMod" ⟨false, true, true⟩).fst = AcqResult.alreadyAcquired := by
  have h := c1_conflict_poisons mymodDemoState "mymod" ⟨false, true, true⟩ 0
    rfl (by decide) (by decide) (by decide)
  refine ⟨rfl, by decide, by decide, by decide, h.1, ?_,
    (h.2.2.2 _ Relation.ReflTransGen.refl "MyMod" ⟨false, true, true⟩
      (by decide)).1⟩
  rw [h.2.1]
  rfl

/-- Witness for C8 at the state `mymodDemoState`: teardown deletes
exactly the legacy directory, and an acquisition deletes nothing. -/
theorem c8_unload_frame_witness :
    unload mymodDemoState =
      ({ mymodDemoState with storages := [], has_error := true, hostCtx := false },
        [FSOp.removeAll (old_path_of mymodDemoState.game_path)]) ∧
    FSOp.removeAll (root_path_of ["G"]) ∉
      (get_storage mymodDemoState "other" ⟨false, false, true⟩).snd.snd ∧
    old_path_of ["G"] ≠ root_path_of ["G"] ∧
    old_path_of ["G"] ≠ root_path_of ["G"] ++ ["mymod"] := by
  have h := c8_unload_frame mymodDemoState
  exact ⟨h.1, h.2.1 "other" ⟨false, false, true⟩ (root_path_of ["G"]),
    h.2.2.2.2.1 ["G"], h.2.2.2.2.2 ["G"] "mymod"⟩

theorem distinctKeys_mapInsert_of_find_none {m : List (String × Nat)}
    {k : String} {v : Nat} (hd : distinctKeys m)
    (hf : find_storage m k = none) : distinctKeys (mapInsert m k v) := by
  have hkeys := find_storage_eq_none.mp hf
  have hne : ∀ e ∈ m, e.fst ≠ k := by
    intro e he heq
    have hx := hkeys e he
    rw [heq, equals_insensitive_refl] at hx
    exact absurd hx (by simp)
  rw [mapInsert_eq_append hne]
  refine List.pairwise_append.mpr ⟨hd, by simp [distinctKeys], ?_⟩
  intro a ha b hb
  simp only [List.mem_singleton] at hb
  subst hb
  exact hkeys a ha

theorem reachable_distinctKeys {s : RegState} (h : Reachable s) :
    distinctKeys s.storages := by
  induction h with
  | init => exact List.Pairwise.nil
  | @step u t hr hstep ih =>
    cases hstep with
    | doLoad base o =>
      rw [load_storages_eq]
      exact ih
    | doUnload => exact List.Pairwise.nil
    | doGet name o =>
      rcases get_storage_storages_cases u name o with hc | ⟨hf, hc⟩
      · rw [hc]; exact ih
      · rw [hc]; exact distinctKeys_mapInsert_of_find_none ih hf
    | doShared o =>
      rcases get_shared_storage_storages_cases u o with hc | ⟨hf, hc⟩
      · rw [hc]; exact ih
      · rw [hc]; exact distinctKeys_mapInsert_of_find_none ih hf

/-- C2: In every state reachable by any sequence of `load`, `unload`,
`get_storage` and `get_shared_storage` calls, the map never holds two
keys that are equal up to case; and `get_storage` only ever grants (and
hence inserts) a fresh handle for a name with no case-insensitive match
in the map. -/
theorem c2_unique_per_name (s : RegState) (h : Reachable s) :
    distinctKeys s.storages ∧
    ∀ name o g, (get_storage s name o).fst = AcqResult.granted g →
      find_storage s.storages name = none :=
  ⟨reachable_distinctKeys h, fun _ _ _ hg => get_storage_granted_find_none hg⟩

/-- Witness for C2 at the state reached by a successful `load` followed
by a successful acquisition of `"mymod"`. -/
theorem c2_unique_per_name_witness :
    distinctKeys
      (get_storage (load initState ["G"]
          ⟨⟨false, false, true⟩, ⟨false, false, false⟩⟩).fst
        "mymod" ⟨false, false, true⟩).snd.fst.storages ∧
    ((get_storage
        (get_storage (load initState ["G"]
            ⟨⟨false, false, true⟩, ⟨false, false, false⟩⟩).fst
          "mymod" ⟨false, false, true⟩).snd.fst
        "other" ⟨false, false, true⟩).fst = AcqResult.granted 1 →
      find_storage
        (get_storage (load initState ["G"]
            ⟨⟨false, false, true⟩, ⟨false, false, false⟩⟩).fst
          "mymod" ⟨false, false, true⟩).snd.fst.storages
        "other" = none) := by
  have hreach : Reachable
      (get_storage (load initState ["G"]
          ⟨⟨false, false, true⟩, ⟨false, false, false⟩⟩).fst
        "mymod" ⟨false, false, true⟩).snd.fst :=
    Reachable.step
      (Reachable.step Reachable.init
        (RegStep.doLoad ["G"] ⟨⟨false, false, true⟩, ⟨false, false, false⟩⟩
          initState))
      (RegStep.doGet "mymod" ⟨false, false, true⟩ _)
  have h := c2_unique_per_name _ hreach
  exact ⟨h.1, h.2 "other" ⟨false, false, true⟩ 1⟩

end RedFS
